import Mathlib

/-!
Verification of the LFU cache core of python-ctools (src/ctools_lfu.c).

The C module stores Python values in `LFUWrapper` objects (value plus
visit metadata) inside a `PyDict` owned by an `LFUCache` struct.  Here the
dict is embedded as an insertion-ordered association list with generic
keys and values; machine `unsigned int` fields are natural numbers taken
modulo `2 ^ 32` exactly where the C arithmetic wraps.  Every operation of
the C file is translated function by function; fallible operations return
a `PyRet` value describing the `PyObject *` result (object, Python None,
NULL with an exception set, NULL without one, or undefined behaviour from
a null-pointer dereference).
-/

set_option autoImplicit false
set_option linter.unusedSectionVars false
set_option linter.unusedVariables false

namespace CtoolsLFU

/-- Modulus of the `unsigned int` fields (`last_visit`, `visit_count`). -/
def U32 : Nat := 2 ^ 32

/-- LFU_INIT_VAL from ctools_lfu.c: initial visit count of a new entry. -/
def LFU_INIT_VAL : Nat := 255

/-- LFU_BUCKET from ctools_lfu.c: number of sampling buckets. -/
def LFU_BUCKET : Nat := 8

/-- LFU_BUCKET_SIZE from ctools_lfu.c: the exact-scan / sampling threshold. -/
def LFU_BUCKET_SIZE : Nat := 256

/-- The LFUWrapper struct: a stored value plus visit metadata.  The two
counters are `unsigned int` in C; they are kept as naturals that the
operations reduce modulo `U32` where the C code wraps. -/
structure LFUWrapper (V : Type) where
  wrapped : V
  last_visit : Nat
  visit_count : Nat
deriving Repr, DecidableEq

/-- LFUWrapper_init: a fresh wrapper starts with `visit_count = LFU_INIT_VAL`
and `last_visit` equal to the current minute clock. -/
def LFUWrapper_mk {V : Type} (v : V) (now : Nat) : LFUWrapper V :=
  { wrapped := v, last_visit := now % U32, visit_count := LFU_INIT_VAL }

/-- LFUWrapper_UPDATE_WEIGHT: `visit_count++` (wrapping as unsigned) and
`last_visit = time_in_minutes()`. -/
def LFUWrapper_UPDATE_WEIGHT {V : Type} (w : LFUWrapper V) (now : Nat) :
    LFUWrapper V :=
  { w with visit_count := (w.visit_count + 1) % U32, last_visit := now % U32 }

/-- LFUWrapper_wrapped: records a visit, then yields the stored value. -/
def LFUWrapper_wrapped {V : Type} (w : LFUWrapper V) (now : Nat) :
    LFUWrapper V × V :=
  let w2 := LFUWrapper_UPDATE_WEIGHT w now
  (w2, w2.wrapped)

/-- LFUWrapper_WEIGHT: `num = now - last_visit` in wrapping 32-bit
arithmetic; the weight is `visit_count - num` when `num <= visit_count`,
else `0`. -/
def LFUWrapper_WEIGHT {V : Type} (w : LFUWrapper V) (now : Nat) : Nat :=
  if (U32 + now % U32 - w.last_visit % U32) % U32 > w.visit_count then 0
  else w.visit_count - (U32 + now % U32 - w.last_visit % U32) % U32

/-- The exception kinds the LFU module can set. -/
inductive PyExc where
  | KeyError
  | TypeError
  | ValueError
deriving Repr, DecidableEq

/-- Result of a C function returning `PyObject *` (plus the exception
state): a real object, the `Py_None` singleton, NULL with an exception
set, NULL with no exception set, or a crash from undefined behaviour. -/
inductive PyRet (V : Type) where
  | obj (v : V)
  | pyNone
  | err (e : PyExc)
  | nullNoExc
  | crash
deriving Repr, DecidableEq

section Dict

variable {K : Type} {A : Type} [DecidableEq K]

/-- PyDict_GetItem on the insertion-ordered association list: the value
bound to the first matching key, if any. -/
def assocFind (k : K) : List (K × A) → Option A
  | [] => none
  | (k2, a) :: t => if k = k2 then some a else assocFind k t

/-- PyDict_DelItem: remove the binding of `k` (keys are unique in a
PyDict, so removing the first occurrence is removal). -/
def assocDel (k : K) : List (K × A) → List (K × A)
  | [] => []
  | (k2, a) :: t => if k = k2 then t else (k2, a) :: assocDel k t

/-- In-place mutation of the object stored under `k` (the C code mutates
the wrapper it found without moving it in the dict). -/
def assocUpd (k : K) (f : A → A) : List (K × A) → List (K × A)
  | [] => []
  | (k2, a) :: t => if k = k2 then (k2, f a) :: t else (k2, a) :: assocUpd k f t

end Dict

/-- The LFUCache struct: the dict of wrappers plus capacity and the
hit/miss counters.  `capacity` is `Py_ssize_t` in C; every reachable
cache has a positive capacity, so it is kept as a natural number. -/
structure LFUCache (K V : Type) where
  dict : List (K × LFUWrapper V)
  capacity : Nat
  hits : Nat
  misses : Nat
deriving Repr, DecidableEq

variable {K V : Type} [DecidableEq K]

/-- PyLFUCache_Size: number of entries in the dict. -/
def PyLFUCache_Size (self : LFUCache K V) : Nat := self.dict.length

/-- LFUCache_Contains: `key in cache`, an existence check only; the
cache is returned untouched. -/
def LFUCache_Contains (self : LFUCache K V) (key : K) :
    LFUCache K V × Bool :=
  (self, (assocFind key self.dict).isSome)

/-- One step of the exact-scan loop of LFUCache_lfu: `min` starts at 0 and
doubles as the "unset" sentinel, so the branch is taken whenever
`min == 0 || weight < min`. -/
def lfuStep {K V : Type} (now : Nat) (acc : Nat × Option K)
    (kw : K × LFUWrapper V) : Nat × Option K :=
  let weight := LFUWrapper_WEIGHT kw.2 now
  if acc.1 = 0 ∨ weight < acc.1 then (weight, some kw.1) else acc

/-- Position sampled for bucket `i`: `i * b_size + rand_limit(b_size)`,
where `rand_limit(b_size)` returns a value between 0 and `b_size`
inclusive; the draw is supplied by the oracle as `rng i % (b_size + 1)`. -/
def lfuSamplePos (rng : Nat → Nat) (b_size i : Nat) : Nat :=
  i * b_size + rng i % (b_size + 1)

/-- Weight of the entry a sampled key maps to
(`PyDict_GetItem` then `LFUWrapper_WEIGHT`; the lookup cannot miss
because the key comes from the key list of the same dict). -/
def lfuWeightOf (now : Nat) (dict : List (K × LFUWrapper V)) (key : K) :
    Nat :=
  match assocFind key dict with
  | some w => LFUWrapper_WEIGHT w now
  | none => 0

/-- One step of the bucket-sampling loop of LFUCache_lfu.  The
accumulator carries `(min, rv, key)` where `key` is the C loop variable
holding the key sampled last (it is read again, stale, by the
remainder branch). -/
def lfuSampleStep (rng : Nat → Nat) (now : Nat)
    (dict : List (K × LFUWrapper V)) (keylist : List K) (k0 : K)
    (b_size : Nat) (acc : Nat × Option K × Option K) (i : Nat) :
    Nat × Option K × Option K :=
  if acc.1 = 0 ∨ lfuWeightOf now dict (keylist.getD (lfuSamplePos rng b_size i) k0) < acc.1 then
    (lfuWeightOf now dict (keylist.getD (lfuSamplePos rng b_size i) k0),
     some (keylist.getD (lfuSamplePos rng b_size i) k0),
     some (keylist.getD (lfuSamplePos rng b_size i) k0))
  else (acc.1, acc.2.1, some (keylist.getD (lfuSamplePos rng b_size i) k0))

/-- The sampling branch of LFUCache_lfu (taken when the dict holds at
least LFU_BUCKET_SIZE entries): one key is sampled per bucket for the
first `LFU_BUCKET - 1` buckets; when the size is not a multiple of
LFU_BUCKET, a midpoint representative of the remainder is additionally
weighed, but the C code then assigns `rv = key` with the stale `key`
loop variable (the key sampled last in the bucket loop), exactly as
modelled here.  `k0` is the first key of the dict, used as the default
of the (always in-range) list indexing. -/
def lfuSampleScan (rng : Nat → Nat) (now : Nat)
    (dict : List (K × LFUWrapper V)) (k0 : K) : Option K :=
  let dict_len := dict.length
  let keylist := dict.map Prod.fst
  let b_size := dict_len / LFU_BUCKET
  let acc := (List.range (LFU_BUCKET - 1)).foldl
    (lfuSampleStep rng now dict keylist k0 b_size)
    ((0 : Nat), (none : Option K), (none : Option K))
  if dict_len % LFU_BUCKET ≠ 0 then
    let pos := LFU_BUCKET * b_size + (dict_len - LFU_BUCKET * b_size) / 2
    if acc.1 = 0 ∨ lfuWeightOf now dict (keylist.getD pos k0) < acc.1 then
      acc.2.2
    else acc.2.1
  else acc.2.1

/-- Victim selection over the dict of the cache: `none` on an empty
dict (the C code sets a KeyError and returns NULL); an exact scan of
every entry below LFU_BUCKET_SIZE entries; bucket sampling at or above
it. -/
def lfuSelect (rng : Nat → Nat) (now : Nat) :
    List (K × LFUWrapper V) → Option K
  | [] => none
  | (k0, w0) :: t =>
    if ((k0, w0) :: t).length < LFU_BUCKET_SIZE then
      (((k0, w0) :: t).foldl (lfuStep now) ((0 : Nat), (none : Option K))).2
    else lfuSampleScan rng now ((k0, w0) :: t) k0

/-- LFUCache_lfu: victim selection on the cache.  `rng` is the oracle
standing for the C `rand()` stream. -/
def LFUCache_lfu (rng : Nat → Nat) (now : Nat) (self : LFUCache K V) :
    Option K :=
  lfuSelect rng now self.dict

/-- LFUCache_evict: delete the key chosen by LFUCache_lfu; a no-op on an
empty cache (the KeyError from lfu is cleared). -/
def LFUCache_evict (rng : Nat → Nat) (now : Nat) (self : LFUCache K V) :
    LFUCache K V :=
  match LFUCache_lfu rng now self with
  | none => self
  | some k => { self with dict := assocDel k self.dict }

/-- PyLFUCache_DelItem: on a present key, remove the binding; on an
absent key the C code raises TypeError (with the key as message) and
leaves the cache unchanged. -/
def PyLFUCache_DelItem (self : LFUCache K V) (key : K) :
    LFUCache K V × Except PyExc Unit :=
  match assocFind key self.dict with
  | none => (self, Except.error PyExc.TypeError)
  | some _ => ({ self with dict := assocDel key self.dict }, Except.ok ())

/-- PyLFUCache_SetItem: replace the value in place when the key exists
(no visit recorded); otherwise evict once if the insertion would exceed
capacity, then append a fresh wrapper. -/
def PyLFUCache_SetItem (rng : Nat → Nat) (now : Nat) (self : LFUCache K V)
    (key : K) (value : V) : LFUCache K V :=
  match assocFind key self.dict with
  | some _ =>
    { self with dict := assocUpd key (fun w => { w with wrapped := value }) self.dict }
  | none =>
    let self2 :=
      if PyLFUCache_Size self + 1 > self.capacity then
        LFUCache_evict rng now self
      else self
    { self2 with dict := self2.dict ++ [(key, LFUWrapper_mk value now)] }

/-- PyLFUCache_Clear: drop all entries and reset both counters. -/
def PyLFUCache_Clear (self : LFUCache K V) : LFUCache K V :=
  { self with dict := [], hits := 0, misses := 0 }

/-- LFUCache_mp_subscript, the primary indexed read `cache[key]`: a miss
increments `misses` and raises KeyError; a hit increments `hits`,
records a visit on the wrapper, and returns the stored value. -/
def LFUCache_mp_subscript (now : Nat) (self : LFUCache K V) (key : K) :
    LFUCache K V × PyRet V :=
  match assocFind key self.dict with
  | none => ({ self with misses := self.misses + 1 }, PyRet.err PyExc.KeyError)
  | some w =>
    let r := LFUWrapper_wrapped w now
    ({ self with hits := self.hits + 1,
                 dict := assocUpd key (fun _ => r.1) self.dict },
     PyRet.obj r.2)

/-- LFUCache_keys: snapshot of the key list; no state change. -/
def LFUCache_keys (self : LFUCache K V) : LFUCache K V × List K :=
  (self, self.dict.map Prod.fst)

/-- LFUCache_tp_iter: iteration is an iterator over the keys snapshot. -/
def LFUCache_tp_iter (self : LFUCache K V) : LFUCache K V × List K :=
  LFUCache_keys self

/-- LFUCache_values: snapshot of the values; each included wrapper gets a
visit recorded (LFUWrapper_wrapped) as a side effect. -/
def LFUCache_values (now : Nat) (self : LFUCache K V) :
    LFUCache K V × List V :=
  ({ self with dict := self.dict.map fun kw => (kw.1, (LFUWrapper_wrapped kw.2 now).1) },
   self.dict.map fun kw => (LFUWrapper_wrapped kw.2 now).2)

/-- LFUCache_items: snapshot of the key/value pairs; records a visit on
every included wrapper, like LFUCache_values. -/
def LFUCache_items (now : Nat) (self : LFUCache K V) :
    LFUCache K V × List (K × V) :=
  ({ self with dict := self.dict.map fun kw => (kw.1, (LFUWrapper_wrapped kw.2 now).1) },
   self.dict.map fun kw => (kw.1, (LFUWrapper_wrapped kw.2 now).2))

/-- LFUCache_get, `cache.get(key, default)`: returns the stored value on
a hit without recording a visit; on a miss returns the default when
supplied, else Py_None.  Never touches the counters. -/
def LFUCache_get (self : LFUCache K V) (key : K) (dflt : Option V) :
    LFUCache K V × PyRet V :=
  match assocFind key self.dict with
  | none =>
    match dflt with
    | none => (self, PyRet.pyNone)
    | some d => (self, PyRet.obj d)
  | some w => (self, PyRet.obj w.wrapped)

/-- LFUCache_pop: on a miss, like LFUCache_get.  On a hit the C code runs
`if (!PyLFUCache_DelItem(self, key))` — DelItem returns 0 on success, so
the successful deletion takes the error branch and the function returns
NULL (with no exception set) after removing the entry; only a failing
deletion would return the value. -/
def LFUCache_pop (self : LFUCache K V) (key : K) (dflt : Option V) :
    LFUCache K V × PyRet V :=
  match assocFind key self.dict with
  | none =>
    match dflt with
    | none => (self, PyRet.pyNone)
    | some d => (self, PyRet.obj d)
  | some w =>
    let r := PyLFUCache_DelItem self key
    match r.2 with
    | Except.ok _ => (r.1, PyRet.nullNoExc)
    | Except.error _ => (r.1, PyRet.obj w.wrapped)

/-- LFUCache_setdefault: on a hit, record a visit and return the stored
value; on a miss, insert the default through PyLFUCache_SetItem and
return it.  (The C code substitutes Py_None when no default argument is
given; that argument defaulting is host plumbing, so the resolved
default is taken as given here.) -/
def LFUCache_setdefault (rng : Nat → Nat) (now : Nat) (self : LFUCache K V)
    (key : K) (dflt : V) : LFUCache K V × PyRet V :=
  match assocFind key self.dict with
  | none =>
    (PyLFUCache_SetItem rng now self key dflt, PyRet.obj dflt)
  | some w =>
    let r := LFUWrapper_wrapped w now
    ({ self with dict := assocUpd key (fun _ => r.1) self.dict }, PyRet.obj r.2)

/-- LFUCache_setnx: on a hit, record a visit and return the stored value.
On a miss the C code calls the producer and immediately does
`Py_INCREF(_default)` without a NULL check: a failing producer yields
`_default == NULL` and the INCREF dereferences a null pointer, modelled
as `PyRet.crash` (the callback result is the oracle `callback`, `none`
meaning the call raised). -/
def LFUCache_setnx (rng : Nat → Nat) (now : Nat) (self : LFUCache K V)
    (key : K) (callback : Option V) : LFUCache K V × PyRet V :=
  match assocFind key self.dict with
  | none =>
    match callback with
    | none => (self, PyRet.crash)
    | some v => (PyLFUCache_SetItem rng now self key v, PyRet.obj v)
  | some w =>
    let r := LFUWrapper_wrapped w now
    ({ self with dict := assocUpd key (fun _ => r.1) self.dict }, PyRet.obj r.2)

/-- LFUCache_update: apply PyLFUCache_SetItem over the given pairs in
order. -/
def LFUCache_update (rng : Nat → Nat) (now : Nat) (self : LFUCache K V)
    (pairs : List (K × V)) : LFUCache K V :=
  pairs.foldl (fun s kv => PyLFUCache_SetItem rng now s kv.1 kv.2) self

/-- Iterated eviction, the `for (i = 0; i < r; ++i) LFUCache_evict` loop
of LFUCache_set_capacity. -/
def evictN (rng : Nat → Nat) (now : Nat) :
    Nat → LFUCache K V → LFUCache K V
  | 0, self => self
  | r + 1, self => evictN rng now r (LFUCache_evict rng now self)

/-- LFUCache_set_capacity: a non-positive argument raises ValueError;
when the new capacity is below both the old capacity and the current
size, `size - new` entries are evicted one at a time before the capacity
field is updated. -/
def LFUCache_set_capacity (rng : Nat → Nat) (now : Nat)
    (self : LFUCache K V) (cap : Int) : LFUCache K V × PyRet Unit :=
  if cap ≤ 0 then (self, PyRet.err PyExc.ValueError)
  else if cap.toNat < self.capacity ∧ PyLFUCache_Size self > cap.toNat then
    ({ evictN rng now (PyLFUCache_Size self - cap.toNat) self with
        capacity := cap.toNat }, PyRet.pyNone)
  else ({ self with capacity := cap.toNat }, PyRet.pyNone)

/-- LFUCache_hints, `cache.hints()`: `(capacity, hits, misses)`. -/
def LFUCache_hints (self : LFUCache K V) : Nat × Nat × Nat :=
  (self.capacity, self.hits, self.misses)

/-! ### Association-list lemmas -/

section DictLemmas

variable {A : Type}

theorem assocUpd_length (k : K) (f : A → A) (l : List (K × A)) :
    (assocUpd k f l).length = l.length := by
  induction l with
  | nil => rfl
  | cons hd t ih =>
    obtain ⟨k2, a⟩ := hd
    simp only [assocUpd]
    split <;> simp [ih]

theorem assocUpd_map_fst (k : K) (f : A → A) (l : List (K × A)) :
    (assocUpd k f l).map Prod.fst = l.map Prod.fst := by
  induction l with
  | nil => rfl
  | cons hd t ih =>
    obtain ⟨k2, a⟩ := hd
    simp only [assocUpd]
    split <;> simp [ih]

theorem assocFind_assocUpd_self (k : K) (f : A → A) (l : List (K × A)) (a : A)
    (h : assocFind k l = some a) :
    assocFind k (assocUpd k f l) = some (f a) := by
  induction l with
  | nil => simp [assocFind] at h
  | cons hd t ih =>
    obtain ⟨k2, b⟩ := hd
    by_cases hk : k = k2
    · subst hk
      simp [assocFind] at h
      subst h
      simp [assocUpd, assocFind]
    · simp only [assocFind, if_neg hk] at h
      simp only [assocUpd, if_neg hk, assocFind, if_neg hk]
      exact ih h

theorem assocFind_assocUpd_ne (k k2 : K) (f : A → A) (l : List (K × A))
    (h : k2 ≠ k) :
    assocFind k2 (assocUpd k f l) = assocFind k2 l := by
  induction l with
  | nil => rfl
  | cons hd t ih =>
    obtain ⟨k3, a⟩ := hd
    by_cases hk : k = k3
    · subst hk
      simp only [assocUpd, if_pos rfl, assocFind, if_neg h]
    · simp only [assocUpd, if_neg hk, assocFind]
      split <;> simp [ih]

theorem assocDel_length_le (k : K) (l : List (K × A)) :
    (assocDel k l).length ≤ l.length := by
  induction l with
  | nil => simp [assocDel]
  | cons hd t ih =>
    obtain ⟨k2, a⟩ := hd
    simp only [assocDel]
    split
    · simp
    · simpa using Nat.succ_le_succ ih

theorem assocDel_length_mem (k : K) (l : List (K × A))
    (h : k ∈ l.map Prod.fst) :
    (assocDel k l).length + 1 = l.length := by
  induction l with
  | nil => simp at h
  | cons hd t ih =>
    obtain ⟨k2, a⟩ := hd
    by_cases hk : k = k2
    · simp [assocDel, hk]
    · have h2 : k ∈ t.map Prod.fst := by
        simpa [hk] using h
      simp only [assocDel, if_neg hk, List.length_cons]
      simp [ih h2]

theorem assocFind_append_self (k : K) (l : List (K × A)) (a : A)
    (h : assocFind k l = none) :
    assocFind k (l ++ [(k, a)]) = some a := by
  induction l with
  | nil => simp [assocFind]
  | cons hd t ih =>
    obtain ⟨k2, b⟩ := hd
    by_cases hk : k = k2
    · simp [assocFind, hk] at h
    · simp only [assocFind, if_neg hk] at h ⊢
      exact ih h

theorem getD_mem (l : List K) (n : Nat) (d : K) (hd : d ∈ l) :
    l.getD n d ∈ l := by
  by_cases h : n < l.length
  · rw [List.getD_eq_getElem _ _ h]
    exact l.getElem_mem h
  · rw [List.getD_eq_default _ _ (Nat.le_of_not_lt h)]
    exact hd

end DictLemmas

/-! ### Victim-selection lemmas -/

theorem foldl_lfuStep_mem (now : Nat) :
    ∀ (l : List (K × LFUWrapper V)) (acc : Nat × Option K) (k : K),
      (l.foldl (lfuStep now) acc).2 = some k →
      k ∈ l.map Prod.fst ∨ acc.2 = some k := by
  intro l
  induction l with
  | nil => intro acc k h; right; exact h
  | cons hd t ih =>
    intro acc k h
    simp only [List.foldl_cons] at h
    rcases ih (lfuStep now acc hd) k h with hm | ha
    · left; simp [hm]
    · by_cases hc : acc.1 = 0 ∨ LFUWrapper_WEIGHT hd.2 now < acc.1
      · simp only [lfuStep, if_pos hc, Option.some.injEq] at ha
        left
        simp [← ha]
      · simp only [lfuStep, if_neg hc] at ha
        right
        exact ha

theorem foldl_lfuStep_isSome_preserve (now : Nat) :
    ∀ (l : List (K × LFUWrapper V)) (acc : Nat × Option K),
      acc.2.isSome → ((l.foldl (lfuStep now) acc).2).isSome := by
  intro l
  induction l with
  | nil => intro acc h; exact h
  | cons hd t ih =>
    intro acc h
    simp only [List.foldl_cons]
    apply ih
    by_cases hc : acc.1 = 0 ∨ LFUWrapper_WEIGHT hd.2 now < acc.1
    · simp [lfuStep, hc]
    · simpa [lfuStep, hc] using h

theorem foldl_lfuStep_cons_isSome (now : Nat) (hd : K × LFUWrapper V)
    (t : List (K × LFUWrapper V)) :
    (((hd :: t).foldl (lfuStep now) ((0 : Nat), (none : Option K))).2).isSome := by
  simp only [List.foldl_cons]
  apply foldl_lfuStep_isSome_preserve
  simp [lfuStep]

theorem sampleStep_isSome (rng : Nat → Nat) (now : Nat)
    (dict : List (K × LFUWrapper V)) (keylist : List K) (k0 : K)
    (b_size : Nat) (acc : Nat × Option K × Option K) (i : Nat)
    (hQ : acc.1 = 0 ∨ (acc.2.1.isSome ∧ acc.2.2.isSome)) :
    (lfuSampleStep rng now dict keylist k0 b_size acc i).2.1.isSome ∧
    (lfuSampleStep rng now dict keylist k0 b_size acc i).2.2.isSome := by
  by_cases hc : acc.1 = 0 ∨
      lfuWeightOf now dict (keylist.getD (lfuSamplePos rng b_size i) k0) < acc.1
  · rw [lfuSampleStep, if_pos hc]
    simp
  · rcases hQ with h0 | hR
    · exact absurd (Or.inl h0) hc
    · rw [lfuSampleStep, if_neg hc]
      simpa using hR.1

theorem foldl_sampleStep_isSome (rng : Nat → Nat) (now : Nat)
    (dict : List (K × LFUWrapper V)) (keylist : List K) (k0 : K)
    (b_size : Nat) :
    ∀ (is : List Nat) (acc : Nat × Option K × Option K),
      acc.2.1.isSome ∧ acc.2.2.isSome →
      ((is.foldl (lfuSampleStep rng now dict keylist k0 b_size) acc).2.1.isSome ∧
       (is.foldl (lfuSampleStep rng now dict keylist k0 b_size) acc).2.2.isSome) := by
  intro is
  induction is with
  | nil => intro acc h; exact h
  | cons i rest ih =>
    intro acc h
    simp only [List.foldl_cons]
    exact ih _ (sampleStep_isSome rng now dict keylist k0 b_size acc i (Or.inr h))

theorem foldl_sampleStep_mem (rng : Nat → Nat) (now : Nat)
    (dict : List (K × LFUWrapper V)) (keylist : List K) (k0 : K)
    (b_size : Nat) (hk0 : k0 ∈ keylist) :
    ∀ (is : List Nat) (acc : Nat × Option K × Option K),
      (∀ k, acc.2.1 = some k → k ∈ keylist) →
      (∀ k, acc.2.2 = some k → k ∈ keylist) →
      ((∀ k, (is.foldl (lfuSampleStep rng now dict keylist k0 b_size) acc).2.1 = some k → k ∈ keylist) ∧
       (∀ k, (is.foldl (lfuSampleStep rng now dict keylist k0 b_size) acc).2.2 = some k → k ∈ keylist)) := by
  intro is
  induction is with
  | nil => intro acc h1 h2; exact ⟨h1, h2⟩
  | cons i rest ih =>
    intro acc h1 h2
    simp only [List.foldl_cons]
    apply ih
    · intro k hk
      by_cases hc : acc.1 = 0 ∨
          lfuWeightOf now dict (keylist.getD (lfuSamplePos rng b_size i) k0) < acc.1
      · simp only [lfuSampleStep, if_pos hc, Option.some.injEq] at hk
        rw [← hk]
        exact getD_mem keylist _ k0 hk0
      · simp only [lfuSampleStep, if_neg hc] at hk
        exact h1 k hk
    · intro k hk
      by_cases hc : acc.1 = 0 ∨
          lfuWeightOf now dict (keylist.getD (lfuSamplePos rng b_size i) k0) < acc.1
      · simp only [lfuSampleStep, if_pos hc, Option.some.injEq] at hk
        rw [← hk]
        exact getD_mem keylist _ k0 hk0
      · simp only [lfuSampleStep, if_neg hc, Option.some.injEq] at hk
        rw [← hk]
        exact getD_mem keylist _ k0 hk0

theorem foldl_sampleStep_ne_nil_isSome (rng : Nat → Nat) (now : Nat)
    (dict : List (K × LFUWrapper V)) (keylist : List K) (k0 : K)
    (b_size : Nat) (is : List Nat) (acc : Nat × Option K × Option K)
    (hne : is ≠ []) (hQ : acc.1 = 0 ∨ (acc.2.1.isSome ∧ acc.2.2.isSome)) :
    ((is.foldl (lfuSampleStep rng now dict keylist k0 b_size) acc).2.1.isSome ∧
     (is.foldl (lfuSampleStep rng now dict keylist k0 b_size) acc).2.2.isSome) := by
  cases is with
  | nil => exact absurd rfl hne
  | cons i rest =>
    simp only [List.foldl_cons]
    exact foldl_sampleStep_isSome rng now dict keylist k0 b_size rest _
      (sampleStep_isSome rng now dict keylist k0 b_size acc i hQ)

/-- The sampling branch on a dict containing its default key always
returns a key of the dict. -/
theorem lfuSampleScan_spec (rng : Nat → Nat) (now : Nat)
    (dict : List (K × LFUWrapper V)) (k0 : K)
    (hk0 : k0 ∈ dict.map Prod.fst) :
    ∃ k, lfuSampleScan rng now dict k0 = some k ∧ k ∈ dict.map Prod.fst := by
  have hne : List.range (LFU_BUCKET - 1) ≠ [] := by simp [LFU_BUCKET]
  have hsome := foldl_sampleStep_ne_nil_isSome rng now dict
    (dict.map Prod.fst) k0 (dict.length / LFU_BUCKET)
    (List.range (LFU_BUCKET - 1))
    ((0 : Nat), (none : Option K), (none : Option K)) hne (Or.inl rfl)
  have hmem := foldl_sampleStep_mem rng now dict (dict.map Prod.fst) k0
    (dict.length / LFU_BUCKET) hk0 (List.range (LFU_BUCKET - 1))
    ((0 : Nat), (none : Option K), (none : Option K))
    (by intro k hk; simp at hk) (by intro k hk; simp at hk)
  unfold lfuSampleScan
  dsimp only
  split
  · split
    · obtain ⟨k, hk⟩ := Option.isSome_iff_exists.mp hsome.2
      exact ⟨k, hk, hmem.2 k hk⟩
    · obtain ⟨k, hk⟩ := Option.isSome_iff_exists.mp hsome.1
      exact ⟨k, hk, hmem.1 k hk⟩
  · obtain ⟨k, hk⟩ := Option.isSome_iff_exists.mp hsome.1
    exact ⟨k, hk, hmem.1 k hk⟩

/-- Victim selection on a nonempty cache always returns a key, and that
key is one of the keys of the dict (in both the exact-scan and the
bucket-sampling regime). -/
theorem lfu_spec (rng : Nat → Nat) (now : Nat) (self : LFUCache K V)
    (hne : self.dict ≠ []) :
    ∃ k, LFUCache_lfu rng now self = some k ∧ k ∈ self.dict.map Prod.fst := by
  obtain ⟨⟨k0, w0⟩, t, hd⟩ : ∃ p t, self.dict = p :: t := by
    cases h : self.dict with
    | nil => exact absurd h hne
    | cons p t => exact ⟨p, t, rfl⟩
  rw [LFUCache_lfu, hd]
  by_cases hlen : ((k0, w0) :: t).length < LFU_BUCKET_SIZE
  · rw [lfuSelect, if_pos hlen]
    have hs := foldl_lfuStep_cons_isSome now (k0, w0) t
    obtain ⟨k, hk⟩ := Option.isSome_iff_exists.mp hs
    refine ⟨k, hk, ?_⟩
    rcases foldl_lfuStep_mem now ((k0, w0) :: t) ((0 : Nat), (none : Option K)) k hk with hm | hab
    · exact hm
    · exact absurd hab (by simp)
  · rw [lfuSelect, if_neg hlen]
    exact lfuSampleScan_spec rng now ((k0, w0) :: t) k0 (by simp)

/-! ### Eviction lemmas -/

theorem evict_length (rng : Nat → Nat) (now : Nat) (self : LFUCache K V)
    (hne : self.dict ≠ []) :
    (LFUCache_evict rng now self).dict.length + 1 = self.dict.length := by
  obtain ⟨k, hk, hmem⟩ := lfu_spec rng now self hne
  simp only [LFUCache_evict, hk]
  exact assocDel_length_mem k self.dict hmem

theorem evict_length_le (rng : Nat → Nat) (now : Nat) (self : LFUCache K V) :
    (LFUCache_evict rng now self).dict.length ≤ self.dict.length := by
  unfold LFUCache_evict
  split
  · exact Nat.le_refl _
  · simpa using assocDel_length_le _ self.dict

theorem evict_fields (rng : Nat → Nat) (now : Nat) (self : LFUCache K V) :
    (LFUCache_evict rng now self).capacity = self.capacity ∧
    (LFUCache_evict rng now self).hits = self.hits ∧
    (LFUCache_evict rng now self).misses = self.misses := by
  unfold LFUCache_evict
  split <;> simp

theorem evictN_fields (rng : Nat → Nat) (now : Nat) :
    ∀ (r : Nat) (self : LFUCache K V),
      (evictN rng now r self).capacity = self.capacity ∧
      (evictN rng now r self).hits = self.hits ∧
      (evictN rng now r self).misses = self.misses := by
  intro r
  induction r with
  | zero => intro self; exact ⟨rfl, rfl, rfl⟩
  | succ r ih =>
    intro self
    simp only [evictN]
    have h1 := ih (LFUCache_evict rng now self)
    have h2 := evict_fields rng now self
    exact ⟨h1.1.trans h2.1, h1.2.1.trans h2.2.1, h1.2.2.trans h2.2.2⟩

theorem evictN_length (rng : Nat → Nat) (now : Nat) :
    ∀ (r : Nat) (self : LFUCache K V), r ≤ self.dict.length →
      (evictN rng now r self).dict.length = self.dict.length - r := by
  intro r
  induction r with
  | zero => intro self _; simp [evictN]
  | succ r ih =>
    intro self h
    have hne : self.dict ≠ [] := by
      intro h0
      rw [h0] at h
      simp at h
    have hlen := evict_length rng now self hne
    simp only [evictN]
    rw [ih _ (by omega)]
    omega

/-! ### SetItem lemmas -/

theorem setItem_fields (rng : Nat → Nat) (now : Nat) (self : LFUCache K V)
    (key : K) (value : V) :
    (PyLFUCache_SetItem rng now self key value).capacity = self.capacity ∧
    (PyLFUCache_SetItem rng now self key value).hits = self.hits ∧
    (PyLFUCache_SetItem rng now self key value).misses = self.misses := by
  cases h : assocFind key self.dict with
  | some w => simp [PyLFUCache_SetItem, h]
  | none =>
    by_cases hc : PyLFUCache_Size self + 1 > self.capacity
    · simp [PyLFUCache_SetItem, h, hc, evict_fields]
    · simp [PyLFUCache_SetItem, h, hc]

theorem setItem_length_le (rng : Nat → Nat) (now : Nat) (self : LFUCache K V)
    (key : K) (value : V) (hcap : 0 < self.capacity)
    (hinv : self.dict.length ≤ self.capacity) :
    (PyLFUCache_SetItem rng now self key value).dict.length ≤ self.capacity := by
  cases h : assocFind key self.dict with
  | some w =>
    simp only [PyLFUCache_SetItem, h]
    simpa [assocUpd_length] using hinv
  | none =>
    by_cases hc : PyLFUCache_Size self + 1 > self.capacity
    · have hne : self.dict ≠ [] := by
        intro h0
        simp [PyLFUCache_Size, h0] at hc
        omega
      have hlen := evict_length rng now self hne
      simp only [PyLFUCache_SetItem, h, if_pos hc]
      simp only [List.length_append, List.length_cons, List.length_nil]
      omega
    · simp only [PyLFUCache_SetItem, h, if_neg hc]
      simp only [List.length_append, List.length_cons, List.length_nil]
      simp only [PyLFUCache_Size, gt_iff_lt, not_lt] at hc
      omega

/-! ### Weight closed form -/

theorem WEIGHT_closed_form {V2 : Type} (w : LFUWrapper V2) (t : Nat)
    (hlv : w.last_visit ≤ t) (ht : t < U32) :
    LFUWrapper_WEIGHT w t =
      if t - w.last_visit ≤ w.visit_count then
        w.visit_count - (t - w.last_visit)
      else 0 := by
  have hlvU : w.last_visit < U32 := Nat.lt_of_le_of_lt hlv ht
  have hnum : (U32 + t % U32 - w.last_visit % U32) % U32 = t - w.last_visit := by
    rw [Nat.mod_eq_of_lt ht, Nat.mod_eq_of_lt hlvU, Nat.add_sub_assoc hlv,
      Nat.add_mod_left,
      Nat.mod_eq_of_lt (Nat.lt_of_le_of_lt (Nat.sub_le t w.last_visit) ht)]
  unfold LFUWrapper_WEIGHT
  rw [hnum]
  split_ifs <;> omega

/-! ### Concrete fixtures

A two-entry cache matching the scenario of the spec: entry `a` (key 0)
was created at minute 0 and has decayed to weight 0 by minute 300;
entry `b` (key 1) is fresh at minute 300 with weight 255. -/

/-- Deterministic oracle for the rand() stream (never consulted in the
exact-scan regime). -/
def rng0 : Nat → Nat := fun _ => 0

/-- Entry `a`: created at minute 0, never visited again. -/
def wrapperA : LFUWrapper Nat :=
  { wrapped := 10, last_visit := 0, visit_count := 255 }

/-- Entry `b`: fresh at minute 300. -/
def wrapperB : LFUWrapper Nat :=
  { wrapped := 11, last_visit := 300, visit_count := 255 }

/-- Capacity-2 cache holding `a` then `b` in iteration order. -/
def cacheAB : LFUCache Nat Nat :=
  { dict := [(0, wrapperA), (1, wrapperB)], capacity := 2, hits := 0,
    misses := 0 }

/-- An empty cache of capacity 2. -/
def cacheEmpty : LFUCache Nat Nat :=
  { dict := [], capacity := 2, hits := 0, misses := 0 }

/-! ### Claim theorems -/

/-- C1: REFUTED (bug in the exact-scan victim selection).  At minute 300
entry `a` (key 0) has weight 0 and entry `b` (key 1) has weight 255, yet
`LFUCache_lfu` selects key 1: after the scan stores the zero minimum,
the `min == 0` sentinel reads as "unset" and the next entry overrides
the zero-weight victim.  Consequently inserting key 2 into the full
cache evicts `b` and keeps the zero-weight `a`, contradicting the claim
that the victim is the entry of strictly smallest weight and that no
nonzero-weight entry is chosen while a zero-weight entry exists. -/
theorem C1_lfu_skips_zero_weight_victim :
    LFUWrapper_WEIGHT wrapperA 300 = 0 ∧
    LFUWrapper_WEIGHT wrapperB 300 = 255 ∧
    LFUCache_lfu rng0 300 cacheAB = some 1 ∧
    (PyLFUCache_SetItem rng0 300 cacheAB 2 12).dict.map Prod.fst = [0, 2] := by
  refine ⟨by decide, by decide, by decide, by decide⟩

/-- C2: REFUTED (inverted error check in pop).  Popping the present key
0 removes the entry from the dict but returns NULL with no exception set
instead of the stored value: `PyLFUCache_DelItem` returns 0 on success
and `LFUCache_pop` treats that 0 as failure. -/
theorem C2_pop_present_key_returns_null :
    LFUCache_pop cacheAB 0 none =
      ({ cacheAB with dict := [(1, wrapperB)] }, PyRet.nullNoExc) := by
  decide

/-- C3: REFUTED (wrong error kind).  Deleting the absent key 5 leaves
the cache unchanged but signals TypeError (the C code formats the key
into a TypeError), not the KeyError/NotFound kind the spec requires. -/
theorem C3_delete_missing_raises_TypeError :
    PyLFUCache_DelItem cacheAB 5 = (cacheAB, Except.error PyExc.TypeError) :=
  rfl

/-- C4: REFUTED (missing NULL check).  When the producer callback fails
on a miss, `LFUCache_setnx` immediately runs `Py_INCREF(_default)` on
the NULL result, a null-pointer dereference: the failure is not
propagated and the crash happens before any insertion. -/
theorem C4_setnx_failing_producer_crashes :
    LFUCache_setnx rng0 300 cacheAB 5 none = (cacheAB, PyRet.crash) := by
  decide

/-- C8: for an entry with no further visits, over the 32-bit clock range
the weight is monotonically non-increasing in time and floored at zero,
and equals `visit_count - (now - last_visit)` while the elapsed time
does not exceed `visit_count`, else 0. -/
theorem C8_weight_monotone_floor {V2 : Type} (w : LFUWrapper V2)
    (t1 t2 : Nat) (hlv : w.last_visit ≤ t1) (h12 : t1 < t2)
    (ht2 : t2 < U32) :
    LFUWrapper_WEIGHT w t2 ≤ LFUWrapper_WEIGHT w t1 ∧
    (∀ t, w.last_visit ≤ t → t < U32 →
      LFUWrapper_WEIGHT w t =
        if t - w.last_visit ≤ w.visit_count then
          w.visit_count - (t - w.last_visit)
        else 0) := by
  constructor
  · rw [WEIGHT_closed_form w t1 hlv (Nat.lt_trans h12 ht2),
      WEIGHT_closed_form w t2 (Nat.le_trans hlv (Nat.le_of_lt h12)) ht2]
    split_ifs <;> omega
  · intro t h1 h2
    exact WEIGHT_closed_form w t h1 h2

/-- Witness for C8 at the concrete entry `a` and times 100 < 200. -/
theorem C8_weight_monotone_floor_witness :
    LFUWrapper_WEIGHT wrapperA 200 ≤ LFUWrapper_WEIGHT wrapperA 100 ∧
    LFUWrapper_WEIGHT wrapperA 150 =
      if 150 - wrapperA.last_visit ≤ wrapperA.visit_count then
        wrapperA.visit_count - (150 - wrapperA.last_visit)
      else 0 := by
  have h := C8_weight_monotone_floor wrapperA 100 200 (by decide) (by decide)
    (by decide)
  exact ⟨h.1, h.2 150 (by decide) (by decide)⟩

/-- C9: setting an existing key replaces the stored value in place — the
wrapper keeps its `visit_count` and `last_visit`, every other binding is
untouched, the key list (hence the size) is unchanged, and the capacity
and counters are unchanged. -/
theorem C9_set_existing_key_in_place (rng : Nat → Nat) (now : Nat)
    (self : LFUCache K V) (key : K) (v : V) (w : LFUWrapper V)
    (h : assocFind key self.dict = some w) :
    assocFind key (PyLFUCache_SetItem rng now self key v).dict =
      some { w with wrapped := v } ∧
    (∀ k2, k2 ≠ key →
      assocFind k2 (PyLFUCache_SetItem rng now self key v).dict =
        assocFind k2 self.dict) ∧
    (PyLFUCache_SetItem rng now self key v).dict.map Prod.fst =
      self.dict.map Prod.fst ∧
    (PyLFUCache_SetItem rng now self key v).dict.length =
      self.dict.length ∧
    (PyLFUCache_SetItem rng now self key v).capacity = self.capacity ∧
    (PyLFUCache_SetItem rng now self key v).hits = self.hits ∧
    (PyLFUCache_SetItem rng now self key v).misses = self.misses := by
  simp only [PyLFUCache_SetItem, h]
  refine ⟨?_, ?_, ?_, ?_, trivial, trivial, trivial⟩
  · exact assocFind_assocUpd_self key _ self.dict w h
  · intro k2 hk2
    exact assocFind_assocUpd_ne key k2 _ self.dict hk2
  · exact assocUpd_map_fst key _ self.dict
  · exact assocUpd_length key _ self.dict

/-- Witness for C9: overwriting key 0 of the concrete cache keeps the
metadata of entry `a` and the size. -/
theorem C9_set_existing_key_in_place_witness :
    assocFind 0 (PyLFUCache_SetItem rng0 300 cacheAB 0 99).dict =
      some { wrapperA with wrapped := 99 } ∧
    (PyLFUCache_SetItem rng0 300 cacheAB 0 99).dict.length =
      cacheAB.dict.length := by
  have h := C9_set_existing_key_in_place rng0 300 cacheAB 0 99 wrapperA
    (by decide)
  exact ⟨h.1, h.2.2.2.1⟩

/-- C10: `cache.get(key, default)` on a present key returns the stored
value and leaves the whole cache — in particular the visit metadata of
the entry — completely unchanged: no visit is recorded, unlike the
primary indexed read. -/
theorem C10_get_default_hit_records_no_visit (self : LFUCache K V)
    (key : K) (dflt : Option V) (w : LFUWrapper V)
    (h : assocFind key self.dict = some w) :
    LFUCache_get self key dflt = (self, PyRet.obj w.wrapped) := by
  simp [LFUCache_get, h]

/-- Witness for C10 at the concrete cache and key 0. -/
theorem C10_get_default_hit_records_no_visit_witness :
    LFUCache_get cacheAB 0 (some 7) = (cacheAB, PyRet.obj 10) := by
  have h := C10_get_default_hit_records_no_visit cacheAB 0 (some 7) wrapperA
    (by decide)
  exact h

/-- C5: `cache[key]` is the only operation touching the hit/miss
counters.  A hit increments `hits` by one, records a visit on the entry
and returns the stored value; a miss increments `misses` by one and
raises KeyError.  The views (keys, values, items), iteration, the
containment check, pop, get-with-default, setdefault and setnx all leave
both counters unchanged. -/
theorem C5_only_subscript_updates_counters (rng : Nat → Nat) (now : Nat)
    (self : LFUCache K V) :
    (∀ key w, assocFind key self.dict = some w →
      (LFUCache_mp_subscript now self key).1.hits = self.hits + 1 ∧
      (LFUCache_mp_subscript now self key).1.misses = self.misses ∧
      (LFUCache_mp_subscript now self key).2 = PyRet.obj w.wrapped ∧
      assocFind key (LFUCache_mp_subscript now self key).1.dict =
        some (LFUWrapper_UPDATE_WEIGHT w now)) ∧
    (∀ key, assocFind key self.dict = none →
      (LFUCache_mp_subscript now self key).1.misses = self.misses + 1 ∧
      (LFUCache_mp_subscript now self key).1.hits = self.hits ∧
      (LFUCache_mp_subscript now self key).2 = PyRet.err PyExc.KeyError) ∧
    ((LFUCache_keys self).1.hits = self.hits ∧
     (LFUCache_keys self).1.misses = self.misses) ∧
    ((LFUCache_tp_iter self).1.hits = self.hits ∧
     (LFUCache_tp_iter self).1.misses = self.misses) ∧
    (∀ key, (LFUCache_Contains self key).1.hits = self.hits ∧
      (LFUCache_Contains self key).1.misses = self.misses) ∧
    ((LFUCache_values now self).1.hits = self.hits ∧
     (LFUCache_values now self).1.misses = self.misses) ∧
    ((LFUCache_items now self).1.hits = self.hits ∧
     (LFUCache_items now self).1.misses = self.misses) ∧
    (∀ key dflt, (LFUCache_pop self key dflt).1.hits = self.hits ∧
      (LFUCache_pop self key dflt).1.misses = self.misses) ∧
    (∀ key dflt, (LFUCache_get self key dflt).1.hits = self.hits ∧
      (LFUCache_get self key dflt).1.misses = self.misses) ∧
    (∀ key d, (LFUCache_setdefault rng now self key d).1.hits = self.hits ∧
      (LFUCache_setdefault rng now self key d).1.misses = self.misses) ∧
    (∀ key cb, (LFUCache_setnx rng now self key cb).1.hits = self.hits ∧
      (LFUCache_setnx rng now self key cb).1.misses = self.misses) := by
  refine ⟨?_, ?_, ⟨rfl, rfl⟩, ⟨rfl, rfl⟩, fun key => ⟨rfl, rfl⟩, ⟨rfl, rfl⟩,
    ⟨rfl, rfl⟩, ?_, ?_, ?_, ?_⟩
  · intro key w h
    refine ⟨?_, ?_, ?_, ?_⟩
    · simp [LFUCache_mp_subscript, h]
    · simp [LFUCache_mp_subscript, h]
    · simp [LFUCache_mp_subscript, h, LFUWrapper_wrapped, LFUWrapper_UPDATE_WEIGHT]
    · simp only [LFUCache_mp_subscript, h]
      exact assocFind_assocUpd_self key _ self.dict w h
  · intro key h
    refine ⟨?_, ?_, ?_⟩ <;> simp [LFUCache_mp_subscript, h]
  · intro key dflt
    cases h : assocFind key self.dict with
    | none => cases dflt <;> simp [LFUCache_pop, h]
    | some w => simp [LFUCache_pop, h, PyLFUCache_DelItem]
  · intro key dflt
    cases h : assocFind key self.dict with
    | none => cases dflt <;> simp [LFUCache_get, h]
    | some w => simp [LFUCache_get, h]
  · intro key d
    cases h : assocFind key self.dict with
    | none =>
      have hf := setItem_fields rng now self key d
      simp [LFUCache_setdefault, h, hf.2.1, hf.2.2]
    | some w => simp [LFUCache_setdefault, h]
  · intro key cb
    cases h : assocFind key self.dict with
    | none =>
      cases cb with
      | none => simp [LFUCache_setnx, h]
      | some v =>
        have hf := setItem_fields rng now self key v
        simp [LFUCache_setnx, h, hf.2.1, hf.2.2]
    | some w => simp [LFUCache_setnx, h]

/-- Witness for C5 at the concrete cache: a hit on key 0 bumps `hits`,
while listing the values and popping leave the counters alone. -/
theorem C5_only_subscript_updates_counters_witness :
    (LFUCache_mp_subscript 301 cacheAB 0).1.hits = cacheAB.hits + 1 ∧
    (LFUCache_values 301 cacheAB).1.hits = cacheAB.hits ∧
    (LFUCache_pop cacheAB 0 none).1.misses = cacheAB.misses := by
  have h := C5_only_subscript_updates_counters rng0 301 cacheAB
  obtain ⟨hhit, hmiss, hkeys, hiter, hcont, hvals, hitems, hpop, hget,
    hsetd, hsetnx⟩ := h
  exact ⟨(hhit 0 wrapperA (by decide)).1, hvals.1, (hpop 0 none).2⟩

/-- Capacity and size are preserved through LFUCache_update. -/
theorem update_inv (rng : Nat → Nat) (now : Nat) :
    ∀ (pairs : List (K × V)) (self : LFUCache K V),
      0 < self.capacity → self.dict.length ≤ self.capacity →
      ((LFUCache_update rng now self pairs).dict.length ≤
        (LFUCache_update rng now self pairs).capacity ∧
       (LFUCache_update rng now self pairs).capacity = self.capacity) := by
  intro pairs
  induction pairs with
  | nil => intro self h1 h2; exact ⟨h2, rfl⟩
  | cons p rest ih =>
    intro self h1 h2
    have hf := setItem_fields rng now self p.1 p.2
    have hl := setItem_length_le rng now self p.1 p.2 h1 h2
    have hstep := ih (PyLFUCache_SetItem rng now self p.1 p.2)
      (hf.1 ▸ h1) (hf.1 ▸ hl)
    simp only [LFUCache_update, List.foldl_cons] at *
    exact ⟨hstep.1, hstep.2.trans hf.1⟩

/-- C6: starting from any cache with positive capacity whose size is
within capacity, every operation leaves the size at most the (possibly
updated) capacity; in particular a set of a new key on a full cache
evicts exactly once before appending. -/
theorem C6_size_le_capacity (rng : Nat → Nat) (now : Nat)
    (self : LFUCache K V) (hcap : 0 < self.capacity)
    (hinv : PyLFUCache_Size self ≤ self.capacity) :
    (∀ key value,
      PyLFUCache_Size (PyLFUCache_SetItem rng now self key value) ≤
        (PyLFUCache_SetItem rng now self key value).capacity) ∧
    (∀ key, PyLFUCache_Size (PyLFUCache_DelItem self key).1 ≤
        (PyLFUCache_DelItem self key).1.capacity) ∧
    (∀ key dflt, PyLFUCache_Size (LFUCache_pop self key dflt).1 ≤
        (LFUCache_pop self key dflt).1.capacity) ∧
    (∀ key, PyLFUCache_Size (LFUCache_mp_subscript now self key).1 ≤
        (LFUCache_mp_subscript now self key).1.capacity) ∧
    (∀ key dflt, PyLFUCache_Size (LFUCache_get self key dflt).1 ≤
        (LFUCache_get self key dflt).1.capacity) ∧
    (∀ key d, PyLFUCache_Size (LFUCache_setdefault rng now self key d).1 ≤
        (LFUCache_setdefault rng now self key d).1.capacity) ∧
    (∀ key cb, PyLFUCache_Size (LFUCache_setnx rng now self key cb).1 ≤
        (LFUCache_setnx rng now self key cb).1.capacity) ∧
    (∀ pairs, PyLFUCache_Size (LFUCache_update rng now self pairs) ≤
        (LFUCache_update rng now self pairs).capacity) ∧
    PyLFUCache_Size (PyLFUCache_Clear self) ≤ (PyLFUCache_Clear self).capacity ∧
    (∀ cap, PyLFUCache_Size (LFUCache_set_capacity rng now self cap).1 ≤
        (LFUCache_set_capacity rng now self cap).1.capacity) ∧
    PyLFUCache_Size (LFUCache_evict rng now self) ≤
      (LFUCache_evict rng now self).capacity ∧
    PyLFUCache_Size (LFUCache_values now self).1 ≤
      (LFUCache_values now self).1.capacity ∧
    PyLFUCache_Size (LFUCache_items now self).1 ≤
      (LFUCache_items now self).1.capacity := by
  have hSet : ∀ key value,
      PyLFUCache_Size (PyLFUCache_SetItem rng now self key value) ≤
        (PyLFUCache_SetItem rng now self key value).capacity := by
    intro key value
    have h1 := setItem_length_le rng now self key value hcap hinv
    have h2 := (setItem_fields rng now self key value).1
    simpa [PyLFUCache_Size, h2] using h1
  refine ⟨hSet, ?_, ?_, ?_, ?_, ?_, ?_, ?_, ?_, ?_, ?_, ?_, ?_⟩
  · intro key
    cases h : assocFind key self.dict with
    | none => simpa [PyLFUCache_DelItem, h] using hinv
    | some w =>
      simp only [PyLFUCache_DelItem, h, PyLFUCache_Size]
      exact Nat.le_trans (assocDel_length_le key self.dict) hinv
  · intro key dflt
    cases h : assocFind key self.dict with
    | none => cases dflt <;> simpa [LFUCache_pop, h] using hinv
    | some w =>
      simp only [LFUCache_pop, h, PyLFUCache_DelItem, PyLFUCache_Size]
      exact Nat.le_trans (assocDel_length_le key self.dict) hinv
  · intro key
    cases h : assocFind key self.dict with
    | none => simpa [LFUCache_mp_subscript, h] using hinv
    | some w =>
      simpa [LFUCache_mp_subscript, h, PyLFUCache_Size, assocUpd_length]
        using hinv
  · intro key dflt
    cases h : assocFind key self.dict with
    | none => cases dflt <;> simpa [LFUCache_get, h] using hinv
    | some w => simpa [LFUCache_get, h] using hinv
  · intro key d
    cases h : assocFind key self.dict with
    | none => simpa [LFUCache_setdefault, h] using hSet key d
    | some w =>
      simpa [LFUCache_setdefault, h, PyLFUCache_Size, assocUpd_length]
        using hinv
  · intro key cb
    cases h : assocFind key self.dict with
    | none =>
      cases cb with
      | none => simpa [LFUCache_setnx, h] using hinv
      | some v => simpa [LFUCache_setnx, h] using hSet key v
    | some w =>
      simpa [LFUCache_setnx, h, PyLFUCache_Size, assocUpd_length] using hinv
  · intro pairs
    have h := update_inv rng now pairs self hcap hinv
    simpa [PyLFUCache_Size] using h.1
  · simp [PyLFUCache_Clear, PyLFUCache_Size]
  · intro cap
    by_cases hc0 : cap ≤ 0
    · simpa [LFUCache_set_capacity, hc0] using hinv
    · simp only [LFUCache_set_capacity, if_neg hc0, PyLFUCache_Size]
      by_cases hcond : cap.toNat < self.capacity ∧
          self.dict.length > cap.toNat
      · rw [if_pos hcond]
        dsimp only
        rw [evictN_length rng now (self.dict.length - cap.toNat) self
          (Nat.sub_le _ _)]
        omega
      · rw [if_neg hcond]
        dsimp only
        simp only [PyLFUCache_Size] at hinv
        omega
  · have h1 := evict_length_le rng now self
    have h2 := (evict_fields rng now self).1
    simp only [PyLFUCache_Size, h2]
    exact Nat.le_trans h1 hinv
  · simpa [LFUCache_values, PyLFUCache_Size] using hinv
  · simpa [LFUCache_items, PyLFUCache_Size] using hinv

/-- Witness for C6 at the concrete full cache: inserting a new key and
shrinking the capacity both keep the size within the capacity. -/
theorem C6_size_le_capacity_witness :
    PyLFUCache_Size (PyLFUCache_SetItem rng0 300 cacheAB 2 12) ≤
      (PyLFUCache_SetItem rng0 300 cacheAB 2 12).capacity ∧
    PyLFUCache_Size (LFUCache_set_capacity rng0 300 cacheAB 1).1 ≤
      (LFUCache_set_capacity rng0 300 cacheAB 1).1.capacity := by
  have h := C6_size_le_capacity rng0 300 cacheAB (by decide) (by decide)
  obtain ⟨hset, hdel, hpop, hsub, hget, hsetd, hsetnx, hupd, hclear, hsc,
    hev, hvals, hitems⟩ := h
  exact ⟨hset 2 12, hsc 1⟩

/-- C7: shrinking the capacity below the current size evicts exactly
`old_size - new_capacity` entries, one `LFUCache_evict` at a time, then
updates the capacity field, leaving the size equal to the new capacity
and reporting success. -/
theorem C7_set_capacity_shrink_evicts_exactly (rng : Nat → Nat) (now : Nat)
    (self : LFUCache K V) (cap : Int) (hpos : 0 < cap)
    (hlt : cap.toNat < PyLFUCache_Size self)
    (hinv : PyLFUCache_Size self ≤ self.capacity)
    (hregime : PyLFUCache_Size self < LFU_BUCKET_SIZE) :
    (LFUCache_set_capacity rng now self cap).1 =
      { evictN rng now (PyLFUCache_Size self - cap.toNat) self with
          capacity := cap.toNat } ∧
    (LFUCache_set_capacity rng now self cap).1.capacity = cap.toNat ∧
    PyLFUCache_Size (LFUCache_set_capacity rng now self cap).1 =
      cap.toNat ∧
    (LFUCache_set_capacity rng now self cap).2 = PyRet.pyNone := by
  have hc0 : ¬ cap ≤ 0 := by omega
  simp only [PyLFUCache_Size] at hlt hinv
  have hcond : cap.toNat < self.capacity ∧ self.dict.length > cap.toNat :=
    ⟨Nat.lt_of_lt_of_le hlt hinv, hlt⟩
  simp only [LFUCache_set_capacity, if_neg hc0, PyLFUCache_Size]
  rw [if_pos hcond]
  refine ⟨by trivial, by trivial, ?_, by trivial⟩
  dsimp only
  rw [evictN_length rng now (self.dict.length - cap.toNat) self
    (Nat.sub_le _ _)]
  omega

/-- Witness for C7: shrinking the concrete two-entry cache to capacity 1
leaves exactly one entry. -/
theorem C7_set_capacity_shrink_evicts_exactly_witness :
    (LFUCache_set_capacity rng0 300 cacheAB 1).1.capacity = 1 ∧
    PyLFUCache_Size (LFUCache_set_capacity rng0 300 cacheAB 1).1 = 1 := by
  have h := C7_set_capacity_shrink_evicts_exactly rng0 300 cacheAB 1
    (by decide) (by decide) (by decide) (by decide)
  exact ⟨h.2.1, h.2.2.1⟩

end CtoolsLFU
